import Mathlib

/-!
# Verification of the obsidian-document-reader enrichment pipeline

A shallow embedding of the plugin's text/metadata algorithms, translated from
the TypeScript sources:

* `src/services/ArticleProcessor.ts` — the orchestrator (`process`,
  `isDuplicate`, `calculateReadingTime`, `updateFrontmatter`) and the
  `TagGenerator` (`parseResponse`, `isValidTag`);
* the multi-author `AuthorLinker` (`normalizeName`, `findAuthorPage`,
  `processOneAuthor`, `createAuthorPage`) — the version that carries the
  organization denylist and has fuzzy matching removed, which is the one the
  orchestrator imports (`MultiAuthorLinkResult` is only exported there).

JavaScript string operations are modelled by structurally recursive functions
over `List Char` so that every definition evaluates by kernel reduction.
Unicode-specific behaviour of JS `toLowerCase`/`toUpperCase` beyond ASCII is
out of scope; all claims concern ASCII data.
-/

namespace DocReader

/-! ## JS string primitives -/

/-- JS `s.startsWith(p)`: code-unit prefix test. -/
def jsStartsWith (s p : String) : Bool :=
  p.data.isPrefixOf s.data

/-- Matches `pat` against the head of `l`; on success returns the remainder. -/
def dropPrefixCL : List Char → List Char → Option (List Char)
  | [], l => some l
  | _ :: _, [] => none
  | p :: ps, c :: cs => if c = p then dropPrefixCL ps cs else none

/-- Leftmost occurrence of `pat` in `l`: returns the part before the match and
the remainder after it. -/
def findSplit (pat : List Char) : List Char → Option (List Char × List Char)
  | [] =>
    match dropPrefixCL pat [] with
    | some rest => some ([], rest)
    | none => none
  | c :: cs =>
    match dropPrefixCL pat (c :: cs) with
    | some rest => some ([], rest)
    | none =>
      match findSplit pat cs with
      | some (before, after) => some (c :: before, after)
      | none => none

/-- JS `s.includes(sub)`: plain case-sensitive substring test. -/
def jsIncludes (s sub : String) : Bool :=
  (findSplit sub.data s.data).isSome

/-- JS `s.split(sep)` for a single-character separator: splits at every
occurrence, keeping empty segments (so `"".split(sep)` is `[""]`). -/
def splitChar (sep : Char) : List Char → List (List Char)
  | [] => [[]]
  | c :: cs =>
    if c = sep then [] :: splitChar sep cs
    else
      match splitChar sep cs with
      | [] => [[c]]
      | l :: ls => (c :: l) :: ls

/-- JS `s.split(sep)` for a one-character separator, on strings. -/
def jsSplitC (s : String) (sep : Char) : List String :=
  (splitChar sep s.data).map (fun l => String.mk l)

/-- JS `s.trim()`: strip leading and trailing whitespace. -/
def jsTrim (s : String) : String :=
  String.mk (((s.data.dropWhile Char.isWhitespace).reverse.dropWhile Char.isWhitespace).reverse)

/-- JS `s.toLowerCase()` (ASCII fragment). -/
def jsToLower (s : String) : String :=
  String.mk (s.data.map Char.toLower)

/-- JS `s.toUpperCase()` (ASCII fragment). -/
def jsToUpper (s : String) : String :=
  String.mk (s.data.map Char.toUpper)

/-- JS `Array.prototype.join(sep)`. -/
def jsJoin (sep : String) : List String → String
  | [] => ""
  | [x] => x
  | x :: y :: rest => x ++ sep ++ jsJoin sep (y :: rest)

/-- Case-insensitive match of `pat` against the head of `l` (both sides are
lower-cased, modelling a `/.../i` regex on ASCII); returns the remainder. -/
def matchCIPrefix : List Char → List Char → Option (List Char)
  | [], l => some l
  | _ :: _, [] => none
  | p :: ps, c :: cs => if p.toLower = c.toLower then matchCIPrefix ps cs else none

/-- Leftmost case-insensitive occurrence of `pat` in `l`; returns the
remainder after the matched occurrence. -/
def searchCI (pat : List Char) : List Char → Option (List Char)
  | [] => matchCIPrefix pat []
  | c :: cs =>
    match matchCIPrefix pat (c :: cs) with
    | some rest => some rest
    | none => searchCI pat cs

/-- Counts the maximal non-whitespace runs of a character list (what
`s.trim().split(/\s+/).filter(w => w.length > 0).length` computes). The flag
records whether the previous character was inside a word. -/
def countWordsAux : Bool → List Char → Nat
  | _, [] => 0
  | inWord, c :: cs =>
    if c.isWhitespace then countWordsAux false cs
    else (if inWord then 0 else 1) + countWordsAux true cs

def countWords (s : String) : Nat :=
  countWordsAux false s.data

/-- JS `new Set(xs)` spread back into an array with a `seen` accumulator:
keeps the first occurrence of every element, in order. -/
def jsSetDedupAux (seen : List String) : List String → List String
  | [] => []
  | x :: xs =>
    if x ∈ seen then jsSetDedupAux seen xs
    else x :: jsSetDedupAux (seen ++ [x]) xs

/-- `[...new Set(xs)]`: first occurrences in order. -/
def jsSetDedup (xs : List String) : List String :=
  jsSetDedupAux [] xs

/-! ## Vault data model

Obsidian's metadata cache hands the plugin a frontmatter object with
arbitrary YAML values; the code only ever discriminates strings, arrays and
booleans, so the value type models exactly those. A cached file carries a
path, a basename and an optional frontmatter. Folders are modelled by their
paths (only the `TFolder` existence test in `findAuthorPage` needs them). -/

inductive Yaml where
  | str (s : String)
  | list (xs : List Yaml)
  | bool (b : Bool)
  deriving Repr

/-- The frontmatter keys this plugin reads or writes, each optional. The
configurable author key (`settings.authorFrontmatterKey`) is modelled as the
`author` slot. -/
structure Frontmatter where
  url : Option Yaml := none
  tags : Option Yaml := none
  author : Option Yaml := none
  aliases : Option Yaml := none
  srcMarker : Option Yaml := none
  readingTime : Option Yaml := none
  publishedDate : Option Yaml := none
  drProcessed : Option Yaml := none
  drProcessedAt : Option Yaml := none
  deriving Repr

structure VFile where
  path : String
  basename : String
  cacheFrontmatter : Option Frontmatter := none
  deriving Repr

/-- The plugin settings referenced by the embedded code
(`DocumentReaderSettings`). The settings tab constrains `maxTags` to the
slider range 1–10 (`setLimits(1, 10, 1)`, default 5). -/
structure Settings where
  peopleFolder : String
  articlesFolder : String
  autoProcess : Bool
  downloadImages : Bool
  createAuthorPages : Bool
  generateTags : Bool
  organizeByCategory : Bool
  tagPrefix : String
  maxTags : Nat
  useClaudeForAuthor : Bool
  skipDuplicates : Bool
  linkRelatedArticles : Bool
  deriving Repr

/-! ## AuthorLinker

Embeds the multi-author `AuthorLinker` — the version the orchestrator
imports (`MultiAuthorLinkResult` is exported only there). It carries the
organization denylist in `normalizeName` and has the fuzzy substring
fallback of `findAuthorPage` removed. -/

structure AuthorLinkResult where
  authorName : Option String
  authorLink : Option String
  created : Bool
  deriving Repr, DecidableEq

structure MultiAuthorLinkResult where
  results : List AuthorLinkResult
  allAuthorNames : List String
  allAuthorLinks : List String
  authorsCreated : Nat
  deriving Repr, DecidableEq

/-- `normalized.replace(/^(by|written by|author:)\s*/i, '')`: an anchored,
case-insensitive, ordered alternation ("by" is tried first), then `\s*`
consumes following whitespace. Note the regex quirk: any name merely
starting with "by" (e.g. "Byron") loses those two characters. -/
def stripNameLeadIn (s : String) : String :=
  let lower := jsToLower s
  if jsStartsWith lower "by" then String.mk ((s.data.drop 2).dropWhile Char.isWhitespace)
  else if jsStartsWith lower "written by" then String.mk ((s.data.drop 10).dropWhile Char.isWhitespace)
  else if jsStartsWith lower "author:" then String.mk ((s.data.drop 7).dropWhile Char.isWhitespace)
  else s

/-- The fixed organization denylist (`orgIndicators` in the source). -/
def orgIndicators : List String :=
  ["association", "guild", "foundation", "institute", "society",
   "organization", "corporation", "inc", "llc", "ltd", "company",
   "group", "committee", "board", "council", "department", "office"]

/-- `orgIndicators.some(word => lowerParts.includes(word))` where
`lowerParts = (parts[0] + ' ' + parts[1]).toLowerCase()`: a denylist word
anywhere as a substring marks the pair as an organization. -/
def isOrganizationPair (p0 p1 : String) : Bool :=
  orgIndicators.any (fun w => jsIncludes (jsToLower (p0 ++ " " ++ p1)) w)

/-- One token of the title-casing pass: tokens of length ≤ 3 that are
already all-uppercase are kept verbatim; every other token becomes first
letter uppercase plus the rest lowercase. -/
def titleCaseWord (w : String) : String :=
  if w.length = 0 then w
  else if w.length ≤ 3 ∧ w = jsToUpper w then w
  else
    match w.data with
    | [] => w
    | c :: cs => String.mk (c.toUpper :: cs.map Char.toLower)

/-- The final step of `normalizeName`: split on single spaces, title-case
each token, join with single spaces. -/
def jsTitleCase (s : String) : String :=
  jsJoin " " ((jsSplitC s ' ').map titleCaseWord)

/-- `AuthorLinker.normalizeName` (denylist version): trim, strip the lead-in,
invert a plausible "Last, First" pair, title-case. -/
def normalizeName (name : String) : String :=
  let n1 := stripNameLeadIn (jsTrim name)
  let n2 :=
    if jsIncludes n1 "," then
      match (jsSplitC n1 ',').map jsTrim with
      | [p0, p1] =>
        if p0 ≠ "" ∧ p1 ≠ "" then
          if isOrganizationPair p0 p1 = false ∧
              (jsIncludes p1 " " = false ∨ (jsSplitC p1 ' ').length ≤ 2) then
            p1 ++ " " ++ p0
          else n1
        else n1
      | _ => n1
    else n1
  jsTitleCase n2

/-- Alias test of `findAuthorPage`: `cache?.frontmatter?.aliases` must be an
array, and some string element must equal the search key case-insensitively. -/
def aliasMatches (normalizedSearch : String) (f : VFile) : Bool :=
  match f.cacheFrontmatter with
  | some fm =>
    match fm.aliases with
    | some (Yaml.list xs) =>
      xs.any (fun y =>
        match y with
        | Yaml.str a => jsToLower a == normalizedSearch
        | _ => false)
    | _ => false
  | none => false

/-- `AuthorLinker.findAuthorPage` (fuzzy matching removed): requires the
people folder to exist, then scans the markdown files under it in vault
order for an exact case-insensitive basename match or an alias match. -/
def findAuthorPage (s : Settings) (folders : List String) (vault : List VFile)
    (authorName : String) : Option VFile :=
  if (folders.contains s.peopleFolder) = false then none
  else
    let normalizedSearch := jsToLower authorName
    let files := vault.filter (fun f => jsStartsWith f.path (s.peopleFolder ++ "/"))
    files.find? (fun f => jsToLower f.basename == normalizedSearch || aliasMatches normalizedSearch f)

/-- The string aliases recorded for a candidate identity (the array
elements of `cache?.frontmatter?.aliases` that are strings). -/
def aliasStrings (f : VFile) : List String :=
  match f.cacheFrontmatter with
  | some fm =>
    match fm.aliases with
    | some (Yaml.list xs) =>
      xs.filterMap (fun y =>
        match y with
        | Yaml.str a => some a
        | _ => none)
    | _ => []
  | none => []

/-- `AuthorLinker.createAuthorPage`, reduced to its document-store shape:
the whole body runs in a try/catch that returns null on any thrown error.
If `People/<name>.md` already exists as a file it is returned; otherwise the
page is created with `vault.create`, which fails when the path is occupied —
occupation by a file is excluded by the preceding `instanceof TFile` check,
so the reachable store failure is a folder at the page path, caught and
turned into null. Claude bio generation cannot make creation fail (its
errors are caught inside `generateAuthorBio` and placeholders used). -/
def createAuthorPage (s : Settings) (folders : List String) (vault : List VFile)
    (authorName : String) : Option VFile :=
  let filePath := s.peopleFolder ++ "/" ++ authorName ++ ".md"
  match vault.find? (fun f => f.path == filePath) with
  | some existing => some existing
  | none =>
    if folders.contains filePath then none
    else some { path := filePath, basename := authorName, cacheFrontmatter := none }

/-- `AuthorLinker.processOneAuthor`: normalize, search, then create or fall
back to a bare reference depending on `createAuthorPages`. -/
def processOneAuthor (s : Settings) (folders : List String) (vault : List VFile)
    (rawAuthorName : String) : AuthorLinkResult :=
  let authorName := normalizeName rawAuthorName
  match findAuthorPage s folders vault authorName with
  | some existingPage =>
    { authorName := some authorName,
      authorLink := some ("[[" ++ existingPage.basename ++ "]]"),
      created := false }
  | none =>
    if s.createAuthorPages then
      match createAuthorPage s folders vault authorName with
      | some newPage =>
        { authorName := some authorName,
          authorLink := some ("[[" ++ newPage.basename ++ "]]"),
          created := true }
      | none =>
        { authorName := some authorName, authorLink := none, created := false }
    else
      { authorName := some authorName,
        authorLink := some ("[[" ++ authorName ++ "]]"),
        created := false }

/-! ## TagGenerator

Embeds `TagGenerator.parseResponse` and `TagGenerator.isValidTag` from
`ArticleProcessor.ts`. -/

structure TagGenerationResult where
  tags : List String
  category : Option String
  deriving Repr, DecidableEq

/-- One character of `/^[a-z0-9\-\/]+$/`. -/
def isValidTagChar (c : Char) : Bool :=
  ('a' ≤ c && c ≤ 'z') || c.isDigit || c == '-' || c == '/'

/-- `TagGenerator.isValidTag`: the tag must match `/^[a-z0-9\-\/]+$/` and
have length between 1 and 100. -/
def isValidTag (tag : String) : Bool :=
  tag.data.all isValidTagChar && decide (0 < tag.length) && decide (tag.length ≤ 100)

/-- A quote character for `/^["']|["']$/` (double quote or apostrophe,
code point 39). -/
def isQuoteChar (c : Char) : Bool :=
  c == '"' || c.toNat == 39

/-- `line.replace(/^["']|["']$/g, '')`: remove one leading and one trailing
quote (a single quote character is removed once, as the leading match). -/
def stripSurroundingQuotes (s : String) : String :=
  let s1 :=
    match s.data with
    | c :: rest => if isQuoteChar c then String.mk rest else s
    | [] => s
  match s1.data.reverse with
  | c :: _ => if isQuoteChar c then String.mk s1.data.dropLast else s1
  | [] => s1

/-- Collapse every whitespace run to a single hyphen
(`tag.replace(/\s+/g, '-')`); the flag records an open run. -/
def squashWsAux : Bool → List Char → List Char
  | _, [] => []
  | inRun, c :: cs =>
    if c.isWhitespace then
      if inRun then squashWsAux true cs else '-' :: squashWsAux true cs
    else c :: squashWsAux false cs

def whitespaceToHyphens (s : String) : String :=
  String.mk (squashWsAux false s.data)

/-- The per-line cleanup of the tag loop: drop one bullet marker with its
following whitespace (`/^[-*•]\s*/`), drop one leading `#`, drop surrounding
quotes, trim, lowercase. -/
def cleanTagLine (line : String) : String :=
  let l1 :=
    match line.data with
    | c :: rest =>
      if c == '-' || c == '*' || c == '•' then String.mk (rest.dropWhile Char.isWhitespace)
      else line
    | [] => line
  let l2 := if jsStartsWith l1 "#" then String.mk (l1.data.drop 1) else l1
  jsToLower (jsTrim (stripSurroundingQuotes l2))

/-- The `continue` condition after cleanup: skip the line when the cleaned
tag is empty, longer than 100, or contains a space without a slash
(`!tag || tag.length > 100 || (tag.includes(' ') && !tag.includes('/'))`). -/
def skipTagLine (line : String) : Bool :=
  cleanTagLine line == "" || decide (100 < (cleanTagLine line).length) ||
    (jsIncludes (cleanTagLine line) " " && !(jsIncludes (cleanTagLine line) "/"))

/-- The hyphenated, prefixed candidate tag of a line (the value reaching the
final `isValidTag` check). -/
def candidateTag (s : Settings) (line : String) : String :=
  let tag2 := whitespaceToHyphens (cleanTagLine line)
  if jsStartsWith tag2 s.tagPrefix then tag2 else s.tagPrefix ++ tag2

/-- Analysis companion to the tag loop: the cleaned, prefixed tag one line
contributes, or `none` when the line is skipped or fails validation. -/
def tagFromLine (s : Settings) (line : String) : Option String :=
  if jsStartsWith (jsToUpper line) "CATEGORY:" then none
  else if skipTagLine line then none
  else if isValidTag (candidateTag s line) then some (candidateTag s line)
  else none

/-- The tag loop of `parseResponse`, with the accumulated tag list. A line
reaches the `maxTags` break check only when it was not skipped by one of the
two `continue`s; the check runs after the conditional push, so the break
fires as soon as `result.tags.length >= maxTags` there. -/
def collectTagsGo (s : Settings) : List String → List String → List String
  | [], acc => acc
  | line :: rest, acc =>
    if jsStartsWith (jsToUpper line) "CATEGORY:" then collectTagsGo s rest acc
    else if skipTagLine line then collectTagsGo s rest acc
    else
      let acc2 := if isValidTag (candidateTag s line) then acc ++ [candidateTag s line] else acc
      if s.maxTags ≤ acc2.length then acc2 else collectTagsGo s rest acc2

/-- The `TAGS:` section: everything after the first case-insensitive
`TAGS:` occurrence with its `\s*` stripped, or — when the label is absent —
the whole response (`tagsMatch ? tagsMatch[1] : response`). The unanchored
`$` of the regex can shave one final newline off the capture; the section is
immediately split into trimmed non-empty lines, so that difference is
invisible and is not modelled. -/
def tagsSection (response : String) : String :=
  match searchCI "TAGS:".data response.data with
  | some rest => String.mk (rest.dropWhile Char.isWhitespace)
  | none => response

/-- The trimmed, non-empty lines of a section. -/
def sectionLines (section' : String) : List String :=
  ((jsSplitC section' '\n').map jsTrim).filter (fun l => l != "")

/-- One character of the category pattern `/^[A-Za-z\s&-]+$/`. -/
def isCategoryChar (c : Char) : Bool :=
  c.isAlpha || c.isWhitespace || c == '&' || c == '-'

/-- The category extraction `/^CATEGORY:\s*(.+)$/m` plus validation,
modelled line-locally: the first line starting with `CATEGORY:` whose
remainder trims to something non-empty supplies the candidate. (The regex
`\s*` could in principle backtrack across the newline of an empty-remainder
line; no claim touches the category, and this edge is not modelled.) -/
def parseCategory (response : String) : Option String :=
  let hit := ((jsSplitC response '\n').filter
      (fun l => jsStartsWith l "CATEGORY:" && jsTrim (String.mk (l.data.drop 9)) != "")).head?
  match hit with
  | none => none
  | some l =>
    let category := jsTrim (String.mk (l.data.drop 9))
    if 0 < category.length ∧ category.length ≤ 50 ∧ category.data.all isCategoryChar then
      some category
    else none

/-- `TagGenerator.parseResponse`. -/
def parseResponse (s : Settings) (response : String) : TagGenerationResult :=
  { category := parseCategory response,
    tags := collectTagsGo s (sectionLines (tagsSection response)) [] }

/-! ## ArticleProcessor: frontmatter mutation

`ArticleProcessor.updateFrontmatter` passes a pure mutator to
`fileManager.processFrontMatter`; the mutator is embedded here as a function
on `Frontmatter`. `new Date().toISOString()` is the `now` parameter. -/

structure FrontmatterUpdates where
  authorLinks : List String
  tags : List String
  readingTime : Nat
  publishedDate : Option String
  deriving Repr, DecidableEq

/-- The existing-tag extraction of the mutator:
`Array.isArray(frontmatter.tags)` keeps the string elements,
a string value becomes a singleton, anything else is empty. -/
def existingStringTags : Option Yaml → List String
  | some (Yaml.list xs) =>
    xs.filterMap (fun y =>
      match y with
      | Yaml.str s => some s
      | _ => none)
  | some (Yaml.str s) => [s]
  | _ => []

/-- The frontmatter mutator of `ArticleProcessor.updateFrontmatter`. The
`if (updates.publishedDate)` truthiness test makes an empty string skip the
write. -/
def updateFrontmatter (u : FrontmatterUpdates) (now : String) (fm : Frontmatter) : Frontmatter :=
  let fm1 :=
    match u.authorLinks with
    | [] => fm
    | [l] => { fm with author := some (Yaml.str l) }
    | ls => { fm with author := some (Yaml.list (ls.map Yaml.str)) }
  let fm2 :=
    if 0 < u.tags.length then
      let existingTags := existingStringTags fm1.tags
      { fm1 with tags := some (Yaml.list ((jsSetDedup (existingTags ++ u.tags)).map Yaml.str)) }
    else fm1
  let fm3 :=
    if 0 < u.readingTime then
      { fm2 with readingTime := some (Yaml.str (toString u.readingTime ++ " min")) }
    else fm2
  let fm4 :=
    match u.publishedDate with
    | some d => if d = "" then fm3 else { fm3 with publishedDate := some (Yaml.str d) }
    | none => fm3
  { fm4 with drProcessed := some (Yaml.bool true), drProcessedAt := some (Yaml.str now) }

/-! ## ArticleProcessor: duplicate detection and reading time -/

/-- `ArticleProcessor.isDuplicate`: scan the markdown files under the
articles folder (in vault order), skip the current file, and report whether
any cached frontmatter carries the same `url` string. -/
def isDuplicate (s : Settings) (vault : List VFile) (url : String) (currentFile : VFile) : Bool :=
  let files := vault.filter (fun f =>
    jsStartsWith f.path (s.articlesFolder ++ "/") || f.path == s.articlesFolder)
  files.any (fun f =>
    if f.path == currentFile.path then false
    else
      match f.cacheFrontmatter with
      | none => false
      | some fm =>
        match fm.url with
        | some (Yaml.str fileUrl) => fileUrl == url
        | _ => false)

/-- The frontmatter stripper of `calculateReadingTime`: drop a leading
`/^---\r?\n[\s\S]*?\r?\n---\r?\n?/` block; when the block never closes, the
regex fails to match and the content is left whole. `matchCloseDelim`
recognises the lazy `\r?\n---` closing at the current position. -/
def matchCloseDelim : List Char → Option (List Char)
  | '\r' :: '\n' :: '-' :: '-' :: '-' :: rest => some rest
  | '\n' :: '-' :: '-' :: '-' :: rest => some rest
  | _ => none

def findCloseDelim : List Char → Option (List Char)
  | [] => none
  | l@(_ :: rest) =>
    match matchCloseDelim l with
    | some after => some after
    | none => findCloseDelim rest

/-- The trailing `\r?\n?` of the frontmatter regex (greedy, so a lone `\r`
is also consumed). -/
def dropOneNewline : List Char → List Char
  | '\r' :: '\n' :: rest => rest
  | '\n' :: rest => rest
  | '\r' :: rest => rest
  | rest => rest

def dropFrontmatterBlock (content : String) : String :=
  let afterOpen :=
    if jsStartsWith content "---\r\n" then some (content.data.drop 5)
    else if jsStartsWith content "---\n" then some (content.data.drop 4)
    else none
  match afterOpen with
  | none => content
  | some rest =>
    match findCloseDelim rest with
    | none => content
    | some afterClose => String.mk (dropOneNewline afterClose)

/-- `ArticleProcessor.calculateReadingTime`: word count of the body at 200
words per minute, rounded up, at least 1 minute when the body is non-empty. -/
def calculateReadingTime (content : String) : Nat :=
  let wordCount := countWords (dropFrontmatterBlock content)
  if 0 < wordCount then max 1 ((wordCount + 199) / 200) else 0

/-! ## ArticleProcessor: the orchestrator

`ArticleProcessor.process` sequences the pipeline over one document. The
external calls (vault reads/writes, the image, author, tag, move and
related-articles services) are nondeterministic from the core's point of
view; a `StepEnv` fixes the outcome of each call for one run, and the
returned effect trace records which external operations were invoked, in
order. The duplicate gate returning before any of them is exactly the
"no further work" part of the spec. -/

structure ProcessingResult where
  success : Bool
  filePath : String
  imagesDownloaded : Nat
  imagesFailed : Nat
  authorNames : List String
  authorsCreated : Nat
  tagsGenerated : List String
  category : Option String
  publishedDate : Option String
  movedTo : Option String
  readingTime : Nat
  skippedDuplicate : Bool
  relatedArticlesLinked : Nat
  errors : List String
  deriving Repr, DecidableEq

structure ImageProcessingResult where
  updatedContent : String
  downloadedCount : Nat
  failedUrls : List String
  deriving Repr, DecidableEq

/-- Outcomes of the external calls for one run. `relatedStep` condenses the
guarded related-articles block (find, format, read, modify) into the number
of related files linked or the error that any of those calls threw. -/
structure StepEnv where
  readContent : Except String String
  imageStep : Except String ImageProcessingResult
  authorStep : Except String MultiAuthorLinkResult
  tagStep : Except String TagGenerationResult
  modifyOk : Except String Unit
  moveStep : Except String String
  patchOk : Except String Unit
  relatedStep : Except String Nat
  deriving Repr

/-- The externally visible operations `process` can invoke, in invocation
order. An effect is recorded when the call is made, whether or not it then
fails. -/
inductive Effect where
  | imageProcessing
  | authorLinking
  | tagGeneration
  | contentModify
  | categoryMove
  | frontmatterPatch
  | relatedLinking
  deriving Repr, DecidableEq

/-- The all-default result `process` starts from. -/
def initResult (file : VFile) : ProcessingResult :=
  { success := false
    filePath := file.path
    imagesDownloaded := 0
    imagesFailed := 0
    authorNames := []
    authorsCreated := 0
    tagsGenerated := []
    category := none
    publishedDate := none
    movedTo := none
    readingTime := 0
    skippedDuplicate := false
    relatedArticlesLinked := 0
    errors := [] }

/-- The pre-flight duplicate gate: `skipDuplicates` must be on, the cached
`url` must be a non-empty string, and `isDuplicate` must find it elsewhere. -/
def duplicateGate (s : Settings) (vault : List VFile) (file : VFile) : Bool :=
  s.skipDuplicates &&
    (match (file.cacheFrontmatter.getD {}).url with
     | some (Yaml.str u) => decide (0 < u.length) && isDuplicate s vault u file
     | _ => false)

/-- Step 7 (related articles, guarded) and the final `success := true`. -/
def processStep7 (s : Settings) (env : StepEnv) (r : ProcessingResult)
    (effs : List Effect) : ProcessingResult × List Effect :=
  let step :=
    if s.linkRelatedArticles then
      match env.relatedStep with
      | Except.ok n => ({ r with relatedArticlesLinked := n }, effs ++ [Effect.relatedLinking])
      | Except.error e =>
        ({ r with errors := r.errors ++ ["Related articles linking failed: " ++ e] },
         effs ++ [Effect.relatedLinking])
    else (r, effs)
  ({ step.1 with success := true }, step.2)

/-- Step 6 (the frontmatter patch, unguarded: a throw here is caught only by
the top-level handler). The mutator applied is `updateFrontmatter`; the
patched vault state is not threaded — the effect trace records the patch. -/
def processStep6 (s : Settings) (env : StepEnv) (r : ProcessingResult)
    (effs : List Effect) : ProcessingResult × List Effect :=
  match env.patchOk with
  | Except.error e =>
    ({ r with errors := r.errors ++ ["Processing failed: " ++ e] },
     effs ++ [Effect.frontmatterPatch])
  | Except.ok _ => processStep7 s env r (effs ++ [Effect.frontmatterPatch])

/-- Step 5 (move to the category subfolder, guarded). -/
def processStep5 (s : Settings) (env : StepEnv) (r : ProcessingResult)
    (category : Option String) (effs : List Effect) : ProcessingResult × List Effect :=
  if s.organizeByCategory && category.isSome then
    match env.moveStep with
    | Except.ok newPath =>
      processStep6 s env { r with filePath := newPath, movedTo := some newPath }
        (effs ++ [Effect.categoryMove])
    | Except.error e =>
      processStep6 s env { r with errors := r.errors ++ ["Failed to move to category folder: " ++ e] }
        (effs ++ [Effect.categoryMove])
  else processStep6 s env r effs

/-- Step 4 (write back the image-rewritten content, unguarded; only runs
when images were actually downloaded). -/
def processStep4 (s : Settings) (env : StepEnv) (r : ProcessingResult)
    (imageRes : Option ImageProcessingResult) (category : Option String)
    (effs : List Effect) : ProcessingResult × List Effect :=
  let needModify :=
    match imageRes with
    | some ir => decide (0 < ir.downloadedCount)
    | none => false
  if needModify then
    match env.modifyOk with
    | Except.error e =>
      ({ r with errors := r.errors ++ ["Processing failed: " ++ e] },
       effs ++ [Effect.contentModify])
    | Except.ok _ => processStep5 s env r category (effs ++ [Effect.contentModify])
  else processStep5 s env r category effs

/-- Step 1 (image download, guarded). -/
def stepImages (s : Settings) (env : StepEnv) (r : ProcessingResult) :
    ProcessingResult × Option ImageProcessingResult × List Effect :=
  if s.downloadImages then
    match env.imageStep with
    | Except.ok ir =>
      ({ r with imagesDownloaded := ir.downloadedCount,
                imagesFailed := ir.failedUrls.length,
                errors := r.errors ++
                  (if 0 < ir.failedUrls.length then
                    ["Failed to download " ++ toString ir.failedUrls.length ++ " image(s)"]
                   else []) },
       some ir, [Effect.imageProcessing])
    | Except.error e =>
      ({ r with errors := r.errors ++ ["Image processing failed: " ++ e] },
       none, [Effect.imageProcessing])
  else (r, none, [])

/-- Step 2 (author linking, guarded); also returns
`authorResult?.allAuthorLinks || []`. -/
def stepAuthors (s : Settings) (env : StepEnv) (r : ProcessingResult) :
    ProcessingResult × List String × List Effect :=
  if s.createAuthorPages || s.useClaudeForAuthor then
    match env.authorStep with
    | Except.ok ar =>
      ({ r with authorNames := ar.allAuthorNames, authorsCreated := ar.authorsCreated },
       ar.allAuthorLinks, [Effect.authorLinking])
    | Except.error e =>
      ({ r with errors := r.errors ++ ["Author linking failed: " ++ e] }, [], [Effect.authorLinking])
  else (r, [], [])

/-- Step 3 (tag/category generation, guarded). The `TagGenerationResult` of
this source tree has no `publishedDate` member, so the orchestrator's read
of it yields `undefined` and `result.publishedDate` keeps its initial
`null`. -/
def stepTags (s : Settings) (env : StepEnv) (r : ProcessingResult) :
    ProcessingResult × List String × Option String × List Effect :=
  if s.generateTags then
    match env.tagStep with
    | Except.ok tr =>
      ({ r with tagsGenerated := tr.tags, category := tr.category },
       tr.tags, tr.category, [Effect.tagGeneration])
    | Except.error e =>
      ({ r with errors := r.errors ++ ["Tag generation failed: " ++ e] }, [], none, [Effect.tagGeneration])
  else (r, [], none, [])

/-- Steps 1–7 once the content has been read. -/
def processMain (s : Settings) (file : VFile) (env : StepEnv) (content : String) :
    ProcessingResult × List Effect :=
  let r1 := { initResult file with readingTime := calculateReadingTime content }
  let s1 := stepImages s env r1
  let s2 := stepAuthors s env s1.1
  let s3 := stepTags s env s2.1
  processStep4 s env s3.1 s1.2.1 s3.2.2.1 (s1.2.2 ++ s2.2.2 ++ s3.2.2.2)

/-- `ArticleProcessor.process`: the duplicate gate, the unguarded content
read, then the step pipeline. The top-level catch turns an unguarded throw
into a `Processing failed:` entry with `success` still false. -/
def process (s : Settings) (vault : List VFile) (file : VFile) (env : StepEnv) :
    ProcessingResult × List Effect :=
  if duplicateGate s vault file then
    ({ initResult file with
        skippedDuplicate := true,
        errors := ["Duplicate URL found in another file"] }, [])
  else
    match env.readContent with
    | Except.error e => ({ initResult file with errors := ["Processing failed: " ++ e] }, [])
    | Except.ok content => processMain s file env content

/-! ## Concrete sample data

Default-like settings, a two-article vault with one duplicated URL, and
fully specified call environments, used to evaluate the theorems at
concrete inputs. -/

def sampleSettings : Settings :=
  { peopleFolder := "People"
    articlesFolder := "Articles"
    autoProcess := true
    downloadImages := true
    createAuthorPages := true
    generateTags := true
    organizeByCategory := true
    tagPrefix := "research/"
    maxTags := 5
    useClaudeForAuthor := true
    skipDuplicates := true
    linkRelatedArticles := true }

/-- Settings with the duplicate gate disabled and every optional step off,
so a run exercises only the unguarded operations. -/
def plainSettings : Settings :=
  { sampleSettings with
      skipDuplicates := false
      downloadImages := false
      createAuthorPages := false
      useClaudeForAuthor := false
      generateTags := false
      organizeByCategory := false
      linkRelatedArticles := false }

def articleA : VFile :=
  { path := "Articles/a.md", basename := "a",
    cacheFrontmatter := some { url := some (Yaml.str "https://example.com/x") } }

def articleB : VFile :=
  { path := "Articles/b.md", basename := "b",
    cacheFrontmatter := some { url := some (Yaml.str "https://example.com/x") } }

/-- An environment in which every external call succeeds. -/
def envOk : StepEnv :=
  { readContent := Except.ok "hello world"
    imageStep := Except.ok { updatedContent := "hello world", downloadedCount := 0, failedUrls := [] }
    authorStep := Except.ok { results := [], allAuthorNames := [], allAuthorLinks := [], authorsCreated := 0 }
    tagStep := Except.ok { tags := [], category := none }
    modifyOk := Except.ok ()
    moveStep := Except.ok "Articles/X/a.md"
    patchOk := Except.ok ()
    relatedStep := Except.ok 0 }

/-- An environment in which every guarded step fails but the unguarded
operations succeed. -/
def envStepsFail : StepEnv :=
  { envOk with
      imageStep := Except.error "img down"
      authorStep := Except.error "author down"
      tagStep := Except.error "tag down"
      moveStep := Except.error "move down"
      relatedStep := Except.error "related down" }

def johnnyDepp : VFile :=
  { path := "People/Johnny Depp.md", basename := "Johnny Depp",
    cacheFrontmatter := some { aliases := some (Yaml.list []) } }

def janeDoePage : VFile :=
  { path := "People/Jane Doe.md", basename := "Jane Doe",
    cacheFrontmatter := some { aliases := some (Yaml.list [Yaml.str "J. Doe"]) } }

def fmSample : Frontmatter :=
  { tags := some (Yaml.list [Yaml.str "a", Yaml.bool true, Yaml.str "b"]) }

def updTags : FrontmatterUpdates :=
  { authorLinks := [], tags := ["b", "c", "c"], readingTime := 3, publishedDate := none }

def updOneAuthor : FrontmatterUpdates :=
  { authorLinks := ["[[Jane Doe]]"], tags := [], readingTime := 3, publishedDate := none }

def updTwoAuthors : FrontmatterUpdates :=
  { authorLinks := ["[[Jane Doe]]", "[[John Smith]]"], tags := [], readingTime := 3,
    publishedDate := none }

/-! ## Small sanity facts about the primitives -/

theorem data_append (s t : String) : (s ++ t).data = s.data ++ t.data := by
  cases s; cases t; rfl

theorem mk_data (s : String) : String.mk s.data = s := by
  cases s; rfl

theorem isPrefixOf_append_self (p t : List Char) : p.isPrefixOf (p ++ t) = true := by
  induction p with
  | nil => simp [List.isPrefixOf]
  | cons c cs ih => simp [List.isPrefixOf, ih]

theorem jsStartsWith_append (p t : String) : jsStartsWith (p ++ t) p = true := by
  unfold jsStartsWith
  rw [data_append]
  exact isPrefixOf_append_self p.data t.data

/-- If a string has no space, splitting it on a space yields the singleton. -/
theorem jsSplitC_of_not_includes_space (s : String)
    (h : jsIncludes s " " = false) : jsSplitC s ' ' = [s] := by
  unfold jsIncludes at h
  unfold jsSplitC
  have hfind : findSplit " ".data s.data = none := by
    cases hf : findSplit " ".data s.data with
    | none => rfl
    | some v => rw [hf] at h; simp [Option.isSome] at h
  have hsplit : ∀ l : List Char, findSplit " ".data l = none → splitChar ' ' l = [l] := by
    intro l
    induction l with
    | nil => intro _; rfl
    | cons c cs ih =>
      intro hl
      unfold findSplit at hl
      by_cases hc : c = ' '
      · exfalso
        subst hc
        simp [dropPrefixCL] at hl
      · have hd : dropPrefixCL " ".data (c :: cs) = none := by
          simp [dropPrefixCL, hc]
        rw [hd] at hl
        have hrec : findSplit " ".data cs = none := by
          cases hr : findSplit " ".data cs with
          | none => rfl
          | some v =>
            rw [hr] at hl
            rcases v with ⟨b, a⟩
            simp at hl
        have := ih hrec
        simp [splitChar, hc, this]
  rw [hsplit s.data hfind]
  simp [mk_data]

/-! ## Lemmas about the Set-based tag merge -/

theorem jsSetDedupAux_nil (s : List String) : jsSetDedupAux s [] = [] := rfl

theorem jsSetDedupAux_cons_mem {x : String} {s : List String} (xs : List String)
    (h : x ∈ s) : jsSetDedupAux s (x :: xs) = jsSetDedupAux s xs := by
  simp [jsSetDedupAux, h]

theorem jsSetDedupAux_cons_not_mem {x : String} {s : List String} (xs : List String)
    (h : x ∉ s) : jsSetDedupAux s (x :: xs) = x :: jsSetDedupAux (s ++ [x]) xs := by
  simp [jsSetDedupAux, h]

theorem jsSetDedupAux_congr (l : List String) :
    ∀ s1 s2 : List String, (∀ t ∈ l, t ∈ s1 ↔ t ∈ s2) →
      jsSetDedupAux s1 l = jsSetDedupAux s2 l := by
  induction l with
  | nil => intro s1 s2 _; rfl
  | cons x xs ih =>
    intro s1 s2 h
    have hx := h x (List.mem_cons_self x xs)
    by_cases hc : x ∈ s2
    · rw [jsSetDedupAux_cons_mem xs (hx.mpr hc), jsSetDedupAux_cons_mem xs hc]
      exact ih s1 s2 (fun t ht => h t (List.mem_cons_of_mem x ht))
    · rw [jsSetDedupAux_cons_not_mem xs (fun hm => hc (hx.mp hm)),
        jsSetDedupAux_cons_not_mem xs hc]
      have harg : ∀ t ∈ xs, t ∈ s1 ++ [x] ↔ t ∈ s2 ++ [x] := by
        intro t ht
        simp only [List.mem_append, List.mem_singleton]
        exact or_congr_left (h t (List.mem_cons_of_mem x ht))
      rw [ih (s1 ++ [x]) (s2 ++ [x]) harg]

theorem jsSetDedupAux_filter_out (l : List String) :
    ∀ s s' : List String, (∀ t, t ∈ s → t ∈ s') →
      jsSetDedupAux s' (l.filter (fun t => !(decide (t ∈ s)))) = jsSetDedupAux s' l := by
  induction l with
  | nil => intro s s' _; rfl
  | cons x xs ih =>
    intro s s' hsub
    by_cases hx : x ∈ s
    · rw [List.filter_cons_of_neg (by simp [hx])]
      rw [ih s s' hsub, jsSetDedupAux_cons_mem xs (hsub x hx)]
    · rw [List.filter_cons_of_pos (by simp [hx])]
      by_cases hx' : x ∈ s'
      · rw [jsSetDedupAux_cons_mem _ hx', jsSetDedupAux_cons_mem xs hx']
        exact ih s s' hsub
      · rw [jsSetDedupAux_cons_not_mem _ hx', jsSetDedupAux_cons_not_mem xs hx']
        have harg : ∀ t, t ∈ s → t ∈ s' ++ [x] := fun t ht => List.mem_append_left _ (hsub t ht)
        rw [ih s (s' ++ [x]) harg]

theorem jsSetDedupAux_append (a : List String) :
    ∀ (s b : List String),
      jsSetDedupAux s (a ++ b) =
        jsSetDedupAux s a ++ jsSetDedupAux (s ++ jsSetDedupAux s a) b := by
  induction a with
  | nil => intro s b; simp [jsSetDedupAux_nil]
  | cons x a' ih =>
    intro s b
    by_cases hx : x ∈ s
    · rw [List.cons_append, jsSetDedupAux_cons_mem (a' ++ b) hx,
        jsSetDedupAux_cons_mem a' hx]
      exact ih s b
    · rw [List.cons_append, jsSetDedupAux_cons_not_mem (a' ++ b) hx,
        jsSetDedupAux_cons_not_mem a' hx]
      rw [ih (s ++ [x]) b]
      simp [List.append_assoc]

theorem mem_jsSetDedupAux (t : String) (l : List String) :
    ∀ s : List String, t ∈ jsSetDedupAux s l ↔ t ∈ l ∧ t ∉ s := by
  induction l with
  | nil => intro s; simp [jsSetDedupAux_nil]
  | cons x xs ih =>
    intro s
    by_cases hx : x ∈ s
    · rw [jsSetDedupAux_cons_mem xs hx, ih s]
      simp only [List.mem_cons]
      constructor
      · rintro ⟨h1, h2⟩; exact ⟨Or.inr h1, h2⟩
      · rintro ⟨h1 | h1, h2⟩
        · exact absurd hx (h1 ▸ h2)
        · exact ⟨h1, h2⟩
    · rw [jsSetDedupAux_cons_not_mem xs hx]
      constructor
      · intro h
        rcases List.mem_cons.mp h with h1 | h1
        · subst h1; exact ⟨List.mem_cons_self t xs, hx⟩
        · have h2 := (ih (s ++ [x])).mp h1
          exact ⟨List.mem_cons_of_mem x h2.1,
            fun hm => h2.2 (List.mem_append_left _ hm)⟩
      · rintro ⟨h1, h2⟩
        rcases List.mem_cons.mp h1 with h3 | h3
        · subst h3; exact List.mem_cons_self t _
        · by_cases he : t = x
          · subst he; exact List.mem_cons_self t _
          · apply List.mem_cons_of_mem
            apply (ih (s ++ [x])).mpr
            refine ⟨h3, fun hm => ?_⟩
            rcases List.mem_append.mp hm with h4 | h4
            · exact h2 h4
            · exact he (List.mem_singleton.mp h4)

/-- The Set-spread merge of the source decomposes into the specification's
shape: existing tags deduplicated, followed by the new tags not already
present, deduplicated. -/
theorem jsSetDedup_append_decompose (e n : List String) :
    jsSetDedup (e ++ n) =
      jsSetDedup e ++ jsSetDedup (n.filter (fun t => !(decide (t ∈ e)))) := by
  unfold jsSetDedup
  rw [jsSetDedupAux_append e [] n]
  congr 1
  rw [List.nil_append]
  have h1 : jsSetDedupAux (jsSetDedupAux [] e) (n.filter (fun t => !(decide (t ∈ e)))) =
      jsSetDedupAux (jsSetDedupAux [] e) n := by
    apply jsSetDedupAux_filter_out
    intro t ht
    exact (mem_jsSetDedupAux t e []).mpr ⟨ht, by simp⟩
  have h2 : jsSetDedupAux [] (n.filter (fun t => !(decide (t ∈ e)))) =
      jsSetDedupAux (jsSetDedupAux [] e) (n.filter (fun t => !(decide (t ∈ e)))) := by
    apply jsSetDedupAux_congr
    intro t ht
    simp only [List.mem_filter, Bool.not_eq_true', decide_eq_false_iff_not] at ht
    simp only [List.not_mem_nil, false_iff, mem_jsSetDedupAux]
    rintro ⟨h3, _⟩
    exact ht.2 h3
  rw [h2, h1]

/-- Projection of the frontmatter mutator onto the tags field. -/
theorem updateFrontmatter_tags (u : FrontmatterUpdates) (now : String) (fm : Frontmatter) :
    (updateFrontmatter u now fm).tags =
      if 0 < u.tags.length then
        some (Yaml.list ((jsSetDedup (existingStringTags fm.tags ++ u.tags)).map Yaml.str))
      else fm.tags := by
  rcases hA : u.authorLinks with _ | ⟨a1, _ | ⟨a2, as⟩⟩ <;>
    rcases hp : u.publishedDate with _ | d <;>
    simp only [updateFrontmatter, hA, hp] <;>
    split_ifs <;>
    rfl

/-- Projection of the frontmatter mutator onto the author field. -/
theorem updateFrontmatter_author (u : FrontmatterUpdates) (now : String) (fm : Frontmatter) :
    (updateFrontmatter u now fm).author =
      match u.authorLinks with
      | [] => fm.author
      | [l] => some (Yaml.str l)
      | ls => some (Yaml.list (ls.map Yaml.str)) := by
  rcases hA : u.authorLinks with _ | ⟨a1, _ | ⟨a2, as⟩⟩ <;>
    rcases hp : u.publishedDate with _ | d <;>
    simp only [updateFrontmatter, hA, hp] <;>
    split_ifs <;>
    rfl

/-! ## Claim C9 and C10: the frontmatter patch -/

/-- C9: for every header patch performed by the orchestrator with a
non-empty list of newly generated tags, the resulting tags field equals the
document's pre-existing string tags in their original order followed by the
new tags not already present, in their generated order, duplicates removed
keeping the first occurrence; when the new-tag list is empty the tags field
is left unchanged. -/
theorem c9_tag_merge (fm : Frontmatter) (u : FrontmatterUpdates) (now : String) :
    (u.tags ≠ [] →
      (updateFrontmatter u now fm).tags =
        some (Yaml.list
          ((jsSetDedup (existingStringTags fm.tags) ++
            jsSetDedup (u.tags.filter
              (fun t => !(decide (t ∈ existingStringTags fm.tags))))).map Yaml.str)))
    ∧ (u.tags = [] → (updateFrontmatter u now fm).tags = fm.tags) := by
  constructor
  · intro hne
    rw [updateFrontmatter_tags, if_pos (List.length_pos.mpr hne),
      jsSetDedup_append_decompose]
  · intro he
    rw [updateFrontmatter_tags, if_neg (by simp [he])]

/-- Witness for C9 at concrete inputs: existing string tags `["a", "b"]`
(the non-string entry is dropped), new tags `["b", "c", "c"]`, merged to
`["a", "b", "c"]`; and an empty new-tag list leaves the field alone. -/
theorem c9_tag_merge_witness :
    (updateFrontmatter updTags "2025-01-01" fmSample).tags =
        some (Yaml.list [Yaml.str "a", Yaml.str "b", Yaml.str "c"])
    ∧ (updateFrontmatter updOneAuthor "2025-01-01" fmSample).tags = fmSample.tags := by
  constructor
  · have h := (c9_tag_merge fmSample updTags "2025-01-01").1 (by decide)
    rw [h]
    rfl
  · exact (c9_tag_merge fmSample updOneAuthor "2025-01-01").2 rfl

/-- C10: for every header patch performed by the orchestrator, exactly one
author link is written as a single string, two or more as a list of strings,
and none leaves the author key unchanged. -/
theorem c10_author_scalar_or_list (fm : Frontmatter) (u : FrontmatterUpdates) (now : String) :
    (u.authorLinks = [] → (updateFrontmatter u now fm).author = fm.author)
    ∧ (∀ l, u.authorLinks = [l] →
        (updateFrontmatter u now fm).author = some (Yaml.str l))
    ∧ (∀ l1 l2 ls, u.authorLinks = l1 :: l2 :: ls →
        (updateFrontmatter u now fm).author =
          some (Yaml.list (u.authorLinks.map Yaml.str))) := by
  refine ⟨fun h0 => ?_, fun l h1 => ?_, fun l1 l2 ls h2 => ?_⟩
  · rw [updateFrontmatter_author, h0]
  · rw [updateFrontmatter_author, h1]
  · rw [updateFrontmatter_author, h2]

/-- Witness for C10 at concrete inputs: one link becomes a scalar, two
become a list, none leaves the key untouched. -/
theorem c10_author_scalar_or_list_witness :
    (updateFrontmatter updOneAuthor "2025-01-01" fmSample).author =
        some (Yaml.str "[[Jane Doe]]")
    ∧ (updateFrontmatter updTwoAuthors "2025-01-01" fmSample).author =
        some (Yaml.list [Yaml.str "[[Jane Doe]]", Yaml.str "[[John Smith]]"])
    ∧ (updateFrontmatter updTags "2025-01-01" fmSample).author = fmSample.author := by
  refine ⟨?_, ?_, ?_⟩
  · exact (c10_author_scalar_or_list fmSample updOneAuthor "2025-01-01").2.1 "[[Jane Doe]]" rfl
  · exact (c10_author_scalar_or_list fmSample updTwoAuthors "2025-01-01").2.2
      "[[Jane Doe]]" "[[John Smith]]" [] rfl
  · exact (c10_author_scalar_or_list fmSample updTags "2025-01-01").1 rfl

/-! ## Claim C3 and C4: author resolution -/

/-- Creation fails (returns null) exactly when no file occupies the page
path but a folder does: the only store error that can reach the catch of
`createAuthorPage` (occupation by a file is handled by the `instanceof
TFile` pre-check). -/
theorem createAuthorPage_eq_none_iff (s : Settings) (folders : List String)
    (vault : List VFile) (n : String) :
    createAuthorPage s folders vault n = none ↔
      (vault.find? (fun f => f.path == s.peopleFolder ++ "/" ++ n ++ ".md") = none
        ∧ folders.contains (s.peopleFolder ++ "/" ++ n ++ ".md") = true) := by
  simp only [createAuthorPage]
  cases hf : vault.find? (fun f => f.path == s.peopleFolder ++ "/" ++ n ++ ".md") with
  | some existing => simp
  | none =>
    by_cases hc : folders.contains (s.peopleFolder ++ "/" ++ n ++ ".md") = true
    · simp [hc]
    · simp [hc]

/-- Counterexample to C3 as stated: with identity creation ENABLED, no
existing identity, and the page path occupied by a folder, the caught
store failure leaves `authorLink` null while `authorName` is non-null — a
second exception beyond the single one the claim allows. -/
theorem c3_counterexample :
    sampleSettings.createAuthorPages = true
    ∧ (processOneAuthor sampleSettings ["People", "People/Jane Roe.md"] []
        "Jane Roe").authorName = some "Jane Roe"
    ∧ (processOneAuthor sampleSettings ["People", "People/Jane Roe.md"] []
        "Jane Roe").authorLink = none := by
  exact ⟨rfl, rfl, rfl⟩

/-- C3 amended: `processOneAuthor` always sets `authorName`; `authorLink`
is null exactly when creation is enabled, no existing identity was found,
and page creation failed in the document store (its exception caught and
the null kept); and in the claim's original exception — creation disabled,
no identity found — the link is still the reference built from the
canonical name. -/
theorem c3_author_link_exceptions (s : Settings) (folders : List String)
    (vault : List VFile) (raw : String) :
    ((processOneAuthor s folders vault raw).authorName = some (normalizeName raw))
    ∧ ((processOneAuthor s folders vault raw).authorLink = none ↔
        (s.createAuthorPages = true
          ∧ findAuthorPage s folders vault (normalizeName raw) = none
          ∧ createAuthorPage s folders vault (normalizeName raw) = none))
    ∧ (s.createAuthorPages = false →
        findAuthorPage s folders vault (normalizeName raw) = none →
        (processOneAuthor s folders vault raw).authorLink =
          some ("[[" ++ normalizeName raw ++ "]]")) := by
  refine ⟨?_, ?_, ?_⟩
  · simp only [processOneAuthor]
    cases hf : findAuthorPage s folders vault (normalizeName raw) with
    | some p => simp
    | none =>
      by_cases hc : s.createAuthorPages = true
      · cases ho : createAuthorPage s folders vault (normalizeName raw) with
        | none => simp [hc]
        | some p => simp [hc]
      · simp [hc]
  · simp only [processOneAuthor]
    cases hf : findAuthorPage s folders vault (normalizeName raw) with
    | some p => simp
    | none =>
      by_cases hc : s.createAuthorPages = true
      · cases ho : createAuthorPage s folders vault (normalizeName raw) with
        | none => simp [hc]
        | some p => simp [hc]
      · have hc2 : s.createAuthorPages = false := by
          cases h : s.createAuthorPages
          · rfl
          · exact absurd h hc
        simp [hc2]
  · intro hc hf
    simp only [processOneAuthor]
    rw [hf, if_neg (by simp [hc])]

/-- Witness for the amended C3 at concrete inputs: with creation disabled
and a corpus not containing the author, the result still carries the
canonical-name reference, and its link is indeed non-null by the iff. -/
theorem c3_author_link_exceptions_witness :
    (processOneAuthor { sampleSettings with createAuthorPages := false } ["People"]
        [johnnyDepp] "by J.K. rowling").authorLink = some "[[J.k. Rowling]]" := by
  have h := (c3_author_link_exceptions { sampleSettings with createAuthorPages := false }
    ["People"] [johnnyDepp] "by J.K. rowling").2.2 rfl rfl
  rw [h]
  rfl

theorem aliasMatches_iff (k : String) (f : VFile) :
    aliasMatches k f = true ↔ ∃ a ∈ aliasStrings f, jsToLower a = k := by
  unfold aliasMatches aliasStrings
  rcases hc : f.cacheFrontmatter with _ | fm
  · simp [hc]
  · rcases ha : fm.aliases with _ | y
    · simp [hc, ha]
    · cases y with
      | str s => simp [hc, ha]
      | bool b => simp [hc, ha]
      | list xs =>
        simp only [hc, ha, List.any_eq_true, List.mem_filterMap]
        constructor
        · rintro ⟨y, hy, hmatch⟩
          cases y with
          | str a => exact ⟨a, ⟨Yaml.str a, hy, rfl⟩, by simpa using hmatch⟩
          | list zs => exact absurd hmatch (by simp)
          | bool b => exact absurd hmatch (by simp)
        · rintro ⟨a, ⟨y, hy, hsome⟩, heq⟩
          cases y with
          | str a' =>
            refine ⟨Yaml.str a', hy, ?_⟩
            have ha : a' = a := by simpa using hsome
            subst ha
            simpa using heq
          | list zs => exact absurd hsome (by simp)
          | bool b => exact absurd hsome (by simp)

/-- C4: the author-identity search matches only by case-insensitive equality
with a candidate's basename or one of its recorded string aliases — never by
substring containment; in particular a corpus containing "Johnny Depp"
yields nothing for "John". -/
theorem c4_exact_or_alias_only :
    (∀ (s : Settings) (folders : List String) (vault : List VFile) (name : String) (f : VFile),
        findAuthorPage s folders vault name = some f →
        jsToLower f.basename = jsToLower name ∨
          ∃ a ∈ aliasStrings f, jsToLower a = jsToLower name)
    ∧ findAuthorPage sampleSettings ["People"] [johnnyDepp] "John" = none := by
  constructor
  · intro s folders vault name f h
    unfold findAuthorPage at h
    by_cases hfold : (folders.contains s.peopleFolder) = false
    · rw [if_pos hfold] at h
      exact absurd h (by simp)
    · rw [if_neg hfold] at h
      have hp := List.find?_some h
      rcases (Bool.or_eq_true _ _).mp hp with h1 | h1
      · exact Or.inl (by simpa using h1)
      · exact Or.inr ((aliasMatches_iff (jsToLower name) f).mp h1)
  · rfl

/-- Witness for C4 at a concrete input: a successful search ("J. DOE"
against a corpus holding "Jane Doe" with alias "J. Doe") satisfies the
exact-or-alias disjunction. -/
theorem c4_exact_or_alias_only_witness :
    jsToLower janeDoePage.basename = jsToLower "J. DOE" ∨
      ∃ a ∈ aliasStrings janeDoePage, jsToLower a = jsToLower "J. DOE" := by
  exact c4_exact_or_alias_only.1 sampleSettings ["People"] [janeDoePage] "J. DOE"
    janeDoePage rfl

/-! ## Claim C5 and C6: the tag/category parser -/

theorem candidateTag_prefixed (s : Settings) (line : String) :
    jsStartsWith (candidateTag s line) s.tagPrefix = true := by
  simp only [candidateTag]
  by_cases h : jsStartsWith (whitespaceToHyphens (cleanTagLine line)) s.tagPrefix = true
  · rw [if_pos h]
    exact h
  · rw [if_neg h]
    exact jsStartsWith_append s.tagPrefix _

/-- When no line of the section yields a tag, the loop returns its
accumulator unchanged (in particular the empty list), for every `maxTags`. -/
theorem collectTagsGo_no_yield (s : Settings) :
    ∀ (lines acc : List String),
      (∀ l ∈ lines, tagFromLine s l = none) → collectTagsGo s lines acc = acc := by
  intro lines
  induction lines with
  | nil => intro acc _; rfl
  | cons line rest ih =>
    intro acc h
    have hline := h line (List.mem_cons_self line rest)
    have hrest : ∀ l ∈ rest, tagFromLine s l = none :=
      fun l hl => h l (List.mem_cons_of_mem line hl)
    simp only [collectTagsGo]
    by_cases h1 : jsStartsWith (jsToUpper line) "CATEGORY:" = true
    · rw [if_pos h1]
      exact ih acc hrest
    · rw [if_neg h1]
      by_cases h2 : skipTagLine line = true
      · rw [if_pos h2]
        exact ih acc hrest
      · rw [if_neg h2]
        have h3 : isValidTag (candidateTag s line) = false := by
          by_cases h3 : isValidTag (candidateTag s line) = true
          · rw [tagFromLine, if_neg h1, if_neg h2, if_pos h3] at hline
            exact absurd hline (by simp)
          · exact Bool.not_eq_true _ ▸ eq_false_of_ne_true h3
        have h4 : ¬ (isValidTag (candidateTag s line) = true) := by simp [h3]
        rw [if_neg h4]
        by_cases h5 : s.maxTags ≤ acc.length
        · rw [if_pos h5]
        · rw [if_neg h5]
          exact ih acc hrest

/-- Every tag the loop appends passed `isValidTag` and carries the prefix. -/
theorem collectTagsGo_mem (s : Settings) :
    ∀ (lines acc : List String),
      (∀ t ∈ acc, isValidTag t = true ∧ jsStartsWith t s.tagPrefix = true) →
      ∀ t ∈ collectTagsGo s lines acc,
        isValidTag t = true ∧ jsStartsWith t s.tagPrefix = true := by
  intro lines
  induction lines with
  | nil => intro acc h; simpa [collectTagsGo] using h
  | cons line rest ih =>
    intro acc h
    simp only [collectTagsGo]
    by_cases h1 : jsStartsWith (jsToUpper line) "CATEGORY:" = true
    · rw [if_pos h1]
      exact ih acc h
    · rw [if_neg h1]
      by_cases h2 : skipTagLine line = true
      · rw [if_pos h2]
        exact ih acc h
      · rw [if_neg h2]
        by_cases h3 : isValidTag (candidateTag s line) = true
        · rw [if_pos h3]
          have hacc2 : ∀ t ∈ acc ++ [candidateTag s line],
              isValidTag t = true ∧ jsStartsWith t s.tagPrefix = true := by
            intro t ht
            rcases List.mem_append.mp ht with h4 | h4
            · exact h t h4
            · have he : t = candidateTag s line := List.mem_singleton.mp h4
              subst he
              exact ⟨h3, candidateTag_prefixed s line⟩
          by_cases h5 : s.maxTags ≤ (acc ++ [candidateTag s line]).length
          · rw [if_pos h5]
            exact hacc2
          · rw [if_neg h5]
            exact ih _ hacc2
        · rw [if_neg h3]
          by_cases h5 : s.maxTags ≤ acc.length
          · rw [if_pos h5]
            exact h
          · rw [if_neg h5]
            exact ih acc h

/-- With `maxTags ≥ 1`, the loop never exceeds `maxTags` tags: the break
check fires as soon as the accumulator reaches the bound. -/
theorem collectTagsGo_length (s : Settings) :
    ∀ (lines acc : List String), acc.length < s.maxTags →
      (collectTagsGo s lines acc).length ≤ s.maxTags := by
  intro lines
  induction lines with
  | nil => intro acc h; simpa [collectTagsGo] using Nat.le_of_lt h
  | cons line rest ih =>
    intro acc h
    simp only [collectTagsGo]
    by_cases h1 : jsStartsWith (jsToUpper line) "CATEGORY:" = true
    · rw [if_pos h1]
      exact ih acc h
    · rw [if_neg h1]
      by_cases h2 : skipTagLine line = true
      · rw [if_pos h2]
        exact ih acc h
      · rw [if_neg h2]
        by_cases h3 : isValidTag (candidateTag s line) = true
        · rw [if_pos h3]
          have hlen : (acc ++ [candidateTag s line]).length ≤ s.maxTags := by
            simpa [List.length_append] using Nat.succ_le_of_lt h
          by_cases h5 : s.maxTags ≤ (acc ++ [candidateTag s line]).length
          · rw [if_pos h5]
            exact hlen
          · rw [if_neg h5]
            exact ih _ (Nat.lt_of_not_le h5)
        · rw [if_neg h3]
          rw [if_neg (Nat.not_le.mpr h)]
          exact ih acc h

/-- Counterexample to C5 as stated: the response "hello" contains no
`TAGS:` section, yet parsing it (default prefix `research/`, `maxTags` 5)
yields the non-empty tag list `["research/hello"]` — with no section the
loop runs over the whole response. -/
theorem c5_counterexample :
    searchCI "TAGS:".data ("hello" : String).data = none
    ∧ (parseResponse sampleSettings "hello").tags = ["research/hello"] := by
  exact ⟨rfl, rfl⟩

/-- C5 amended: when the response has no `TAGS:` section the whole response
is treated as the tags section, so the parse returns an empty tag list
exactly in the runs where no line survives the filters; the parser is a
total function (never throws), malformed lines being skipped. The theorem
states the amended empty-list condition. -/
theorem c5_no_section_empty_tags (s : Settings) (r : String)
    (hno : searchCI "TAGS:".data r.data = none)
    (hlines : ∀ l ∈ sectionLines r, tagFromLine s l = none) :
    (parseResponse s r).tags = [] := by
  have hsec : tagsSection r = r := by
    unfold tagsSection
    rw [hno]
  simp only [parseResponse, hsec]
  exact collectTagsGo_no_yield s (sectionLines r) [] hlines

/-- Witness for the amended C5: a response of two prose lines and no
`TAGS:` label parses to an empty tag list. -/
theorem c5_no_section_empty_tags_witness :
    (parseResponse sampleSettings "just a prose line\nanother prose line").tags = [] := by
  apply c5_no_section_empty_tags
  · rfl
  · decide

/-- C6: every tag in a parse result is non-empty, at most 100 characters,
matches `^[/a-z0-9-]+$` (lowercase letters, digits, slash, hyphen), and begins with the configured prefix; the result
holds at most `maxTags` tags. The hypothesis `1 ≤ maxTags` reflects the
settings slider, which only offers 1–10 (default 5). -/
theorem c6_tag_invariants (s : Settings) (r : String) (hmax : 1 ≤ s.maxTags) :
    (∀ t ∈ (parseResponse s r).tags,
        t ≠ "" ∧ t.length ≤ 100 ∧ t.data.all isValidTagChar = true ∧
          jsStartsWith t s.tagPrefix = true)
    ∧ (parseResponse s r).tags.length ≤ s.maxTags := by
  constructor
  · intro t ht
    simp only [parseResponse] at ht
    have h := collectTagsGo_mem s (sectionLines (tagsSection r)) [] (by simp) t ht
    have hv := h.1
    unfold isValidTag at hv
    simp only [Bool.and_eq_true, decide_eq_true_eq] at hv
    refine ⟨?_, hv.2, hv.1.1, h.2⟩
    intro he
    rw [he] at hv
    simp at hv
  · exact collectTagsGo_length s _ [] (by simpa using hmax)

/-- Witness for C6 at a concrete input: a mixed response (valid tag, prose
line, upper-case hierarchical tag) respects every invariant. -/
theorem c6_tag_invariants_witness :
    1 ≤ sampleSettings.maxTags
    ∧ (parseResponse sampleSettings
        "CATEGORY: Economics\nTAGS:\n- ai\n- machine learning stuff\n- Economics/Trade-Policy").tags.length
        ≤ sampleSettings.maxTags := by
  refine ⟨by decide, ?_⟩
  exact (c6_tag_invariants sampleSettings
    "CATEGORY: Economics\nTAGS:\n- ai\n- machine learning stuff\n- Economics/Trade-Policy"
    (by decide)).2

/-! ## Claim C7 and C8: name normalization -/

/-- C7: for a name whose remainder (after trim and lead-in strip) has
exactly one comma splitting it into two non-empty trimmed parts, the
inversion to "second part, then first part" happens exactly when no
denylist word occurs case-insensitively as a substring of the joined parts
AND the second part has at most two space-separated segments; otherwise the
remainder is title-cased uninverted. `normalizeName "Smith, John"` is
"John Smith" and `normalizeName "Doe, Jane Foundation"` is unchanged. -/
theorem c7_last_first_inversion (name p0 p1 : String)
    (hcomma : jsIncludes (stripNameLeadIn (jsTrim name)) "," = true)
    (hsplit : (jsSplitC (stripNameLeadIn (jsTrim name)) ',').map jsTrim = [p0, p1])
    (hp0 : p0 ≠ "") (hp1 : p1 ≠ "") :
    (normalizeName name =
      if isOrganizationPair p0 p1 = false ∧ (jsSplitC p1 ' ').length ≤ 2 then
        jsTitleCase (p1 ++ " " ++ p0)
      else jsTitleCase (stripNameLeadIn (jsTrim name)))
    ∧ normalizeName "Smith, John" = "John Smith"
    ∧ normalizeName "Doe, Jane Foundation" = "Doe, Jane Foundation" := by
  refine ⟨?_, rfl, rfl⟩
  have hcond : (isOrganizationPair p0 p1 = false ∧
      (jsIncludes p1 " " = false ∨ (jsSplitC p1 ' ').length ≤ 2)) ↔
      (isOrganizationPair p0 p1 = false ∧ (jsSplitC p1 ' ').length ≤ 2) := by
    constructor
    · rintro ⟨horg, hsp | hlen⟩
      · refine ⟨horg, ?_⟩
        rw [jsSplitC_of_not_includes_space p1 hsp]
        simp
      · exact ⟨horg, hlen⟩
    · rintro ⟨horg, hlen⟩
      exact ⟨horg, Or.inr hlen⟩
  simp only [normalizeName, hcomma, hsplit, if_true]
  have hcase : (if p0 ≠ "" ∧ p1 ≠ "" then
      (if isOrganizationPair p0 p1 = false ∧
          (jsIncludes p1 " " = false ∨ (jsSplitC p1 ' ').length ≤ 2) then
        p1 ++ " " ++ p0
      else stripNameLeadIn (jsTrim name))
      else stripNameLeadIn (jsTrim name)) =
      (if isOrganizationPair p0 p1 = false ∧ (jsSplitC p1 ' ').length ≤ 2 then
        p1 ++ " " ++ p0
      else stripNameLeadIn (jsTrim name)) := by
    rw [if_pos ⟨hp0, hp1⟩]
    by_cases hcc : isOrganizationPair p0 p1 = false ∧ (jsSplitC p1 ' ').length ≤ 2
    · rw [if_pos (hcond.mpr hcc), if_pos hcc]
    · rw [if_neg (fun h => hcc (hcond.mp h)), if_neg hcc]
  rw [hcase, apply_ite jsTitleCase]

/-- Witness for C7 at a concrete input: "Roe, Jane" satisfies the
hypotheses, is not an organization, has a one-word second part, and inverts
to "Jane Roe". -/
theorem c7_last_first_inversion_witness : normalizeName "Roe, Jane" = "Jane Roe" := by
  have h := (c7_last_first_inversion "Roe, Jane" "Roe" "Jane" rfl rfl
    (by decide) (by decide)).1
  rw [h, if_pos (by exact ⟨rfl, by decide⟩)]
  rfl

/-- C8 (code bug at the claimed input): the source's own comment says
all-caps initials like "J.K." are preserved verbatim, but the guard is
`word.length <= 3` and "J.K." has length 4, so the token is re-cased to
"J.k."; the claimed output "J.K. Rowling" is not produced — the prefix
strip and the title-casing of "rowling" do behave as claimed. -/
theorem c8_initialism_length_bug :
    normalizeName "by J.K. rowling" = "J.k. Rowling"
    ∧ normalizeName "by J.K. rowling" ≠ "J.K. Rowling" := by
  exact ⟨rfl, by decide⟩

/-! ## Claim C1 and C2: the orchestrator -/

theorem processStep7_success (s : Settings) (env : StepEnv) (r : ProcessingResult)
    (effs : List Effect) : (processStep7 s env r effs).1.success = true := rfl

theorem processStep6_success (s : Settings) (env : StepEnv) (r : ProcessingResult)
    (effs : List Effect) (hpatch : env.patchOk = Except.ok ()) :
    (processStep6 s env r effs).1.success = true := by
  simp only [processStep6, hpatch]
  exact processStep7_success s env r _

theorem processStep5_success (s : Settings) (env : StepEnv) (r : ProcessingResult)
    (category : Option String) (effs : List Effect) (hpatch : env.patchOk = Except.ok ()) :
    (processStep5 s env r category effs).1.success = true := by
  simp only [processStep5]
  by_cases h : (s.organizeByCategory && category.isSome) = true
  · rw [if_pos h]
    cases hm : env.moveStep with
    | ok newPath => exact processStep6_success s env _ _ hpatch
    | error e => exact processStep6_success s env _ _ hpatch
  · rw [if_neg h]
    exact processStep6_success s env _ _ hpatch

theorem processStep4_success (s : Settings) (env : StepEnv) (r : ProcessingResult)
    (imageRes : Option ImageProcessingResult) (category : Option String)
    (effs : List Effect) (hmod : env.modifyOk = Except.ok ())
    (hpatch : env.patchOk = Except.ok ()) :
    (processStep4 s env r imageRes category effs).1.success = true := by
  simp only [processStep4]
  by_cases h : (match imageRes with
    | some ir => decide (0 < ir.downloadedCount)
    | none => false) = true
  · rw [if_pos h, hmod]
    exact processStep5_success s env _ _ _ hpatch
  · rw [if_neg h]
    exact processStep5_success s env _ _ _ hpatch

theorem processMain_success (s : Settings) (file : VFile) (env : StepEnv) (content : String)
    (hmod : env.modifyOk = Except.ok ()) (hpatch : env.patchOk = Except.ok ()) :
    (processMain s file env content).1.success = true := by
  simp only [processMain]
  exact processStep4_success s env _ _ _ _ hmod hpatch

/-- Counterexample to C2 as stated: with every external call succeeding
(so the top-level unhandled-exception path is not hit), a duplicate-gated
run returns `success = false` — the duplicate-skip outcome does flip
success to false, because the early return precedes `result.success =
true`. -/
theorem c2_counterexample :
    (process sampleSettings [articleA, articleB] articleA envOk).1.skippedDuplicate = true
    ∧ (process sampleSettings [articleA, articleB] articleA envOk).1.success = false := by
  exact ⟨rfl, rfl⟩

/-- C2 amended: the result has `success = true` whenever the duplicate gate
does not fire and the unguarded operations (content read, image-content
write-back, frontmatter patch) succeed — per-step failures recorded in the
error list never make success false; when the gate fires, success stays
false. -/
theorem c2_success_unless_gate_or_fatal (s : Settings) (vault : List VFile) (file : VFile)
    (env : StepEnv)
    (hgate : duplicateGate s vault file = false)
    (hread : ∃ c, env.readContent = Except.ok c)
    (hmod : env.modifyOk = Except.ok ())
    (hpatch : env.patchOk = Except.ok ()) :
    (process s vault file env).1.success = true := by
  obtain ⟨c, hc⟩ := hread
  simp only [process, hgate, Bool.false_eq_true, if_false, hc]
  exact processMain_success s file env c hmod hpatch

/-- Witness for the amended C2: with the gate off and every guarded step
failing, the run still ends with `success = true` and a non-empty error
list. -/
theorem c2_success_unless_gate_or_fatal_witness :
    (process { sampleSettings with skipDuplicates := false } [articleA, articleB]
        articleA envStepsFail).1.success = true
    ∧ (process { sampleSettings with skipDuplicates := false } [articleA, articleB]
        articleA envStepsFail).1.errors ≠ [] := by
  refine ⟨?_, by decide⟩
  exact c2_success_unless_gate_or_fatal { sampleSettings with skipDuplicates := false }
    [articleA, articleB] articleA envStepsFail rfl ⟨"hello world", rfl⟩ rfl rfl

/-- Counterexample to C1 as stated: the duplicate URL is present in another
article, but with the `skipDuplicates` setting off the orchestrator
processes the document anyway — `skippedDuplicate` is false and the
frontmatter patch is performed. -/
theorem c1_counterexample :
    isDuplicate plainSettings [articleA, articleB] "https://example.com/x" articleA = true
    ∧ (process plainSettings [articleA, articleB] articleA envOk).1.skippedDuplicate = false
    ∧ Effect.frontmatterPatch ∈ (process plainSettings [articleA, articleB] articleA envOk).2 := by
  refine ⟨rfl, rfl, ?_⟩
  decide

/-- C1 amended: when duplicate skipping is enabled and the document's
cached URL is a non-empty string equal to another article's URL, `process`
returns `skippedDuplicate = true` and stops before any further work: the
effect trace is empty — no image download, no author resolution or
creation, no tag generation, no content write and no metadata mutation —
and every progress counter still holds its initial value. -/
theorem c1_duplicate_gate_stops (s : Settings) (vault : List VFile) (file : VFile)
    (env : StepEnv) (u : String)
    (hskip : s.skipDuplicates = true)
    (hurl : (file.cacheFrontmatter.getD {}).url = some (Yaml.str u))
    (hlen : 0 < u.length)
    (hdup : isDuplicate s vault u file = true) :
    (process s vault file env).1.skippedDuplicate = true
    ∧ (process s vault file env).2 = []
    ∧ (process s vault file env).1.imagesDownloaded = 0
    ∧ (process s vault file env).1.authorNames = []
    ∧ (process s vault file env).1.authorsCreated = 0
    ∧ (process s vault file env).1.tagsGenerated = [] := by
  have hgate : duplicateGate s vault file = true := by
    unfold duplicateGate
    rw [hskip, hurl]
    simp [hlen, hdup]
  simp [process, hgate, initResult]

/-- Witness for the amended C1 at concrete inputs: two articles share a
URL; processing the first skips with an empty effect trace. -/
theorem c1_duplicate_gate_stops_witness :
    (process sampleSettings [articleA, articleB] articleA envOk).1.skippedDuplicate = true
    ∧ (process sampleSettings [articleA, articleB] articleA envOk).2 = [] := by
  have h := c1_duplicate_gate_stops sampleSettings [articleA, articleB] articleA envOk
    "https://example.com/x" rfl rfl (by decide) rfl
  exact ⟨h.1, h.2.1⟩

end DocReader
